import Mathlib

/-!
Verification of the StockVisualizer screening engine and causality pipeline.

The definitions below are a shallow embedding of the Python sources:
  backend/models/strategy_model.py   (strategy / condition data model and pydantic validation)
  backend/services/strategy_service.py (StrategyService.validate_strategy)
  backend/database/strategy_queries.py (execute_stock_strategy, execute_index_strategy,
                                        _build_condition_clause)
  backend/services/granger_service.py  (GrangerService)
  backend/models/granger_model.py      (request / response data model)

Numeric values are modelled by ℚ (the engine's floats are used only through
comparisons and arithmetic preserved by ℚ); SQL WHERE clauses are modelled by
their evaluation semantics on one row; database reads and the external
statsmodels regression are parameters of the embedded functions.
-/

/-- Embeds IndicatorType of backend/models/strategy_model.py. -/
inductive IndicatorType
  | price
  | volume
  | technical
  | fundamental
  | custom
deriving DecidableEq

/-- Embeds ComparisonOperator of backend/models/strategy_model.py. -/
inductive ComparisonOperator
  | gt
  | gte
  | lt
  | lte
  | eq
  | neq
  | between
  | cross_above
  | cross_below
deriving DecidableEq

/-- Embeds TimeFrame of backend/models/strategy_model.py. -/
inductive TimeFrame
  | daily
  | weekly
  | monthly
deriving DecidableEq

/-- A condition's `value: Union[float, List[float]]` field. -/
inductive CondValue
  | num (v : ℚ)
  | list (vs : List ℚ)
deriving DecidableEq

/-- Embeds ConditionModel of backend/models/strategy_model.py (data part). -/
structure ConditionModel where
  indicator : String
  indicator_type : IndicatorType
  operator : ComparisonOperator
  value : CondValue
  time_frame : TimeFrame := TimeFrame.daily
  days : Option ℕ := none
deriving DecidableEq

/-- Embeds StrategyModel of backend/models/strategy_model.py (data part).
An unvalidated instance; the pydantic field constraints are embedded
separately below. -/
structure StrategyModel where
  name : String
  description : Option String := none
  market : Option String := some "all"
  date_range : Option (List String) := none
  conditions : List ConditionModel
  logic : String := "AND"
  max_stocks : Option ℕ := none
  sort_by : Option String := none
  sort_order : Option String := some "desc"

/-- Message raised by ConditionModel.validate_value when the between value is
not a 2-element list. -/
def between_shape_error : String := "区间比较需要提供两个值的列表"

/-- Message raised by ConditionModel.validate_value when low >= high. -/
def between_order_error : String := "区间的起始值必须小于结束值"

/-- Embeds ConditionModel.validate_value (backend/models/strategy_model.py,
lines 72-84): for operator `between`, the value must be a 2-element list with
v[0] < v[1]; a violation raises ValueError with the corresponding message. -/
def validate_value (operator : ComparisonOperator) (value : CondValue) :
    Except String CondValue :=
  if operator = ComparisonOperator.between then
    match value with
    | CondValue.list [lo, hi] =>
      if hi ≤ lo then Except.error between_order_error
      else Except.ok (CondValue.list [lo, hi])
    | _ => Except.error between_shape_error
  else Except.ok value

/-- A between value that ConditionModel.validate_value rejects: a plain
number, a list whose length is not 2, or a pair with low >= high. -/
def between_malformed (c : ConditionModel) : Bool :=
  decide (c.operator = ComparisonOperator.between) &&
    match c.value with
    | CondValue.list [lo, hi] => decide (hi ≤ lo)
    | _ => true

/-- Field-level error produced for condition number `i` whose value fails
ConditionModel.validate_value; pydantic reports it under the field path
conditions -> i -> value. -/
def condition_value_errors (i : ℕ) (c : ConditionModel) : List String :=
  match validate_value c.operator c.value with
  | Except.error e => ["conditions." ++ toString i ++ ".value: " ++ e]
  | Except.ok _ => []

/-- Errors of the `name: Field(..., min_length=1, max_length=100)` constraint
of StrategyModel. -/
def name_field_errors (name : String) : List String :=
  if name.length < 1 then ["name: ensure this value has at least 1 characters"]
  else if 100 < name.length then ["name: ensure this value has at most 100 characters"]
  else []

/-- Errors of the `conditions: Field(..., min_items=1)` constraint of
StrategyModel. -/
def conditions_field_errors (conditions : List ConditionModel) : List String :=
  if conditions.length < 1 then ["conditions: ensure this value has at least 1 items"]
  else []

/-- Every field-level validation error collected while constructing a
StrategyModel.  Models pydantic's construction semantics for the constraints
declared in backend/models/strategy_model.py: every failed field constraint
contributes an entry and all entries are gathered into the single
ValidationError's error list (the market/logic/sort_order pattern constraints
are irrelevant to the structural failures treated here and are not modelled). -/
def strategy_construction_errors (s : StrategyModel) : List String :=
  name_field_errors s.name ++ conditions_field_errors s.conditions ++
    s.conditions.enum.flatMap (fun p => condition_value_errors p.1 p.2)

/-- Constructing a StrategyModel: pydantic returns the instance when no field
constraint fails, otherwise it reports the full collected list of field-level
errors (a ValidationError carrying all of them at once). -/
def build_strategy (s : StrategyModel) : Except (List String) StrategyModel :=
  match strategy_construction_errors s with
  | [] => Except.ok s
  | es => Except.error es

/-- Embeds StrategyService.validate_strategy
(backend/services/strategy_service.py, lines 81-111): collects error strings
for an empty (or whitespace) name, an empty conditions list and empty
indicator names.  (The source's `condition.value is None` check is always
false for a value of type Union[float, List[float]] and has no counterpart
here.) -/
def validate_strategy (strategy : StrategyModel) : List String :=
  (if strategy.name.trim = "" then ["策略名称不能为空"] else []) ++
  (if strategy.conditions.isEmpty then ["至少需要一个选股条件"] else []) ++
  strategy.conditions.enum.flatMap (fun p =>
    if p.2.indicator.trim = "" then ["条件 " ++ toString (p.1 + 1) ++ ": 指标名称不能为空"]
    else [])

/-- One row of the time-series table as seen by the generated WHERE clause:
its symbol and the numeric value of each column referenced by an indicator. -/
structure Row where
  symbol : String
  get : String → ℚ

/-- Evaluation, on one row, of the SQL comparison emitted by
_build_condition_clause (backend/database/strategy_queries.py, lines 212-271).
`none` models a clause whose parameters cannot be bound (a list value bound
to a scalar comparison, or `value[0]`/`value[1]` indexing failing for
`between`); otherwise `some` of the comparison's truth value.  The source's
trailing `else: clause = "1=1"` branch is unreachable because the operator
enum is exhaustive. -/
def condition_clause_eval (c : ConditionModel) (g : String → ℚ) : Option Bool :=
  match c.operator, c.value with
  | ComparisonOperator.gt, CondValue.num v => some (decide (g c.indicator > v))
  | ComparisonOperator.gte, CondValue.num v => some (decide (g c.indicator ≥ v))
  | ComparisonOperator.lt, CondValue.num v => some (decide (g c.indicator < v))
  | ComparisonOperator.lte, CondValue.num v => some (decide (g c.indicator ≤ v))
  | ComparisonOperator.eq, CondValue.num v => some (decide (g c.indicator = v))
  | ComparisonOperator.neq, CondValue.num v => some (decide (g c.indicator ≠ v))
  | ComparisonOperator.between, CondValue.list (lo :: hi :: _) =>
    some (decide (lo ≤ g c.indicator ∧ g c.indicator ≤ hi))
  | ComparisonOperator.cross_above, CondValue.num v => some (decide (g c.indicator > v))
  | ComparisonOperator.cross_below, CondValue.num v => some (decide (g c.indicator < v))
  | _, _ => none

/-- The `strategy.market and strategy.market != 'all'` guard of
execute_stock_strategy / execute_index_strategy. -/
def market_active : Option String → Bool
  | none => false
  | some m => if m = "" then false else if m = "all" then false else true

/-- SQL `symbol LIKE 'p%'`: the symbol starts with the pattern. -/
def symbol_like (symbol : String) (p : String) : Bool :=
  p.data.isPrefixOf symbol.data

/-- The stock-table market predicate: symbol LIKE patterns appended by
execute_stock_strategy (backend/database/strategy_queries.py, lines 43-49). -/
def stock_market_pred (market : String) (symbol : String) : Bool :=
  if market = "sh" then symbol_like symbol "60" || symbol_like symbol "68"
  else if market = "sz" then symbol_like symbol "00" || symbol_like symbol "30"
  else if market = "bj" then
    symbol_like symbol "43" || symbol_like symbol "83" || symbol_like symbol "87"
  else true

/-- The index-table market predicate: symbol LIKE patterns appended by
execute_index_strategy (backend/database/strategy_queries.py, lines 142-148). -/
def index_market_pred (market : String) (symbol : String) : Bool :=
  if market = "sh" then symbol_like symbol "00" || symbol_like symbol "88"
  else if market = "sz" then symbol_like symbol "39"
  else if market = "bj" then symbol_like symbol "89"
  else true

/-- The market clause list appended first to where_clauses by
execute_stock_strategy: one clause for market sh/sz/bj, nothing otherwise
(the inner if/elif chain has no else branch). -/
def stock_market_clauses (market : Option String) (symbol : String) : List Bool :=
  if market_active market then
    match market with
    | some "sh" => [stock_market_pred "sh" symbol]
    | some "sz" => [stock_market_pred "sz" symbol]
    | some "bj" => [stock_market_pred "bj" symbol]
    | _ => []
  else []

/-- The market clause list appended first to where_clauses by
execute_index_strategy. -/
def index_market_clauses (market : Option String) (symbol : String) : List Bool :=
  if market_active market then
    match market with
    | some "sh" => [index_market_pred "sh" symbol]
    | some "sz" => [index_market_pred "sz" symbol]
    | some "bj" => [index_market_pred "bj" symbol]
    | _ => []
  else []

/-- `logic_operator.join(...)`: clauses joined by AND when logic = "AND",
otherwise by OR. -/
def combine_logic (logic : String) (clauses : List Bool) : Bool :=
  if logic = "AND" then clauses.all id else clauses.any id

/-- The WHERE combination of execute_stock_strategy (lines 56-72): with an
active market the first clause is popped and AND-ed against the join of the
rest; otherwise all clauses are joined with the logic operator; no clause
means no WHERE (every row kept). -/
def stock_combine (mActive : Bool) (logic : String) : List Bool → Bool
  | [] => true
  | m :: rest =>
    if mActive then (if rest.isEmpty then m else m && combine_logic logic rest)
    else combine_logic logic (m :: rest)

/-- The WHERE combination of execute_index_strategy (lines 155-165): with an
active market and more than one clause, the first clause is AND-ed against
the join of the rest; otherwise all clauses (market clause included) are
joined with the logic operator. -/
def index_combine (mActive : Bool) (logic : String) : List Bool → Bool
  | [] => true
  | m :: rest =>
    if mActive && !rest.isEmpty then m && combine_logic logic rest
    else combine_logic logic (m :: rest)

/-- Whether one stock row satisfies the WHERE clause built by
execute_stock_strategy; `none` models a query whose parameters fail to bind. -/
def stock_where_eval (st : StrategyModel) (row : Row) : Option Bool :=
  match st.conditions.mapM (fun c => condition_clause_eval c row.get) with
  | none => none
  | some condClauses =>
    some (stock_combine (market_active st.market) st.logic
      (stock_market_clauses st.market row.symbol ++ condClauses))

/-- Whether one index row satisfies the WHERE clause built by
execute_index_strategy; `none` models a query whose parameters fail to bind. -/
def index_where_eval (st : StrategyModel) (row : Row) : Option Bool :=
  match st.conditions.mapM (fun c => condition_clause_eval c row.get) with
  | none => none
  | some condClauses =>
    some (index_combine (market_active st.market) st.logic
      (index_market_clauses st.market row.symbol ++ condClauses))

/-- One raw OHLCV record fetched for a symbol: its trading date (as an
ordinal), closing price and traded volume. -/
structure KlineRow where
  date : ℕ
  close : ℚ
  volume : ℚ
deriving DecidableEq

/-- The date index of a date-indexed frame. -/
def kline_dates (rows : List KlineRow) : List ℕ := rows.map KlineRow.date

/-- `stock_df[stock_df['volume'] > 0]` when exclude_suspension is requested,
the unfiltered frame otherwise (granger_service.py, lines 169-172). -/
def suspension_filtered_stock (stock_kline : List KlineRow) : Bool → List KlineRow
  | true => stock_kline.filter (fun r => decide (0 < r.volume))
  | false => stock_kline

/-- `index_df.loc[index_df.index.isin(non_suspension_dates)]` when
exclude_suspension is requested (granger_service.py, line 173): the index
frame is restricted to the stock's positive-volume dates, never to its own. -/
def suspension_filtered_index (stock_df index_kline : List KlineRow) : Bool → List KlineRow
  | true => index_kline.filter (fun r => decide (r.date ∈ kline_dates stock_df))
  | false => index_kline

/-- `stock_df.index.intersection(index_df.index)` (granger_service.py,
line 176). -/
def common_dates (stock_df index_df : List KlineRow) : List ℕ :=
  (kline_dates stock_df).filter (fun d => decide (d ∈ kline_dates index_df))

/-- Restrict a frame to the common dates, sort ascending by date and extract
the closing price column (granger_service.py, lines 177-186). -/
def date_close_sorted (rows : List KlineRow) (common : List ℕ) : List (ℕ × ℚ) :=
  List.insertionSort (fun a b => a.1 ≤ b.1)
    ((rows.filter (fun r => decide (r.date ∈ common))).map (fun r => (r.date, r.close)))

/-- Embeds GrangerService.get_stock_index_data (granger_service.py, lines
130-188) given the two raw fetches: empty fetch short-circuits to two empty
series; otherwise optional suspension filtering, date intersection, ascending
sort and extraction of the close column. -/
def get_stock_index_data (stock_kline index_kline : List KlineRow)
    (exclude_suspension : Bool) : List (ℕ × ℚ) × List (ℕ × ℚ) :=
  if stock_kline.isEmpty then ([], [])
  else if index_kline.isEmpty then ([], [])
  else
    let stock_df := suspension_filtered_stock stock_kline exclude_suspension
    let index_df := suspension_filtered_index stock_df index_kline exclude_suspension
    let common := common_dates stock_df index_df
    (date_close_sorted stock_df common, date_close_sorted index_df common)

/-- `np.log(x).diff().dropna()` applied to one column (granger_service.py,
line 209): the first difference of the pointwise-transformed sequence, the
undefined first observation dropped.  The transform (numpy's natural log) is
a parameter. -/
def log_diff_series (log : ℚ → ℚ) (xs : List ℚ) : List ℚ :=
  (xs.zip xs.tail).map (fun p => log p.2 - log p.1)

/-- The same transform over ℝ, used to state the relation to the exact
natural logarithm. -/
def log_diff_series_real (log : ℝ → ℝ) (xs : List ℝ) : List ℝ :=
  (xs.zip xs.tail).map (fun p => log p.2 - log p.1)

/-- The two-column frame `data` handed to grangercausalitytests
(granger_service.py, lines 204-209). -/
def granger_data (log : ℚ → ℚ) (x_series y_series : List ℚ) : List (ℚ × ℚ) :=
  (log_diff_series log x_series).zip (log_diff_series log y_series)

/-- One per-lag record of the result dict (f statistic, p-value of the
ssr_ftest, significance flag). -/
structure LagResult where
  f_value : ℚ
  p_value : ℚ
  is_significant : Bool
deriving DecidableEq

/-- The `conclusion` entry of the result dict. -/
structure GrangerConclusion where
  has_causality : Bool
  significant_lags : List ℕ
  min_p_value : Option ℚ
deriving DecidableEq

/-- The dict returned by run_granger_test: per-lag entries, the conclusion,
and the `error` key present only on the failure path. -/
structure GrangerTestResult where
  lag_results : List (ℕ × LagResult)
  conclusion : GrangerConclusion
  error : Option String := none
deriving DecidableEq

/-- Embeds GrangerService.run_granger_test (granger_service.py, lines
190-251).  The external statsmodels call is the parameter `gct`: on success
it yields, per lag, the (F statistic, p-value) of the ssr_ftest; raising is
modelled by `Except.error`.  The processing mirrors the source: per-lag
records for lags 1..max_lag, significance as p < significance_level, the
conclusion aggregating any-significant / the significant lag list / the
minimum p-value, and a batch-level catch returning the default verdict with
the error message (`min` of an empty sequence raises and lands in the same
catch). -/
def run_granger_test (gct : List (ℚ × ℚ) → ℕ → Except String (ℕ → ℚ × ℚ))
    (log : ℚ → ℚ) (x_series y_series : List ℚ) (max_lag : ℕ)
    (significance_level : ℚ) : GrangerTestResult :=
  match gct (granger_data log x_series y_series) max_lag with
  | Except.error e => ⟨[], ⟨false, [], none⟩, some e⟩
  | Except.ok tr =>
    let lags := List.range' 1 max_lag
    let lag_results := lags.map (fun lag =>
      (lag, (⟨(tr lag).1, (tr lag).2, decide ((tr lag).2 < significance_level)⟩ : LagResult)))
    let significant_lags := lags.filter (fun lag => decide ((tr lag).2 < significance_level))
    match (lags.map (fun lag => (tr lag).2)).min? with
    | none => ⟨[], ⟨false, [], none⟩, some "min() arg is an empty sequence"⟩
    | some m => ⟨lag_results, ⟨!significant_lags.isEmpty, significant_lags, some m⟩, none⟩

/-- Embeds GrangerTestDirection of backend/models/granger_model.py. -/
inductive GrangerTestDirection
  | stock_to_index
  | index_to_stock
  | both
deriving DecidableEq

/-- Embeds GrangerRequest of backend/models/granger_model.py. -/
structure GrangerRequest where
  stock_symbol : String
  max_lag : ℕ := 5
  test_direction : GrangerTestDirection := GrangerTestDirection.both
  significance_level : ℚ := 1/20
  exclude_suspension : Bool := true

/-- Embeds GrangerResultItem of backend/models/granger_model.py: both
direction results are optional and default to None. -/
structure GrangerResultItem where
  index_symbol : String
  index_name : String
  stock_to_index_result : Option GrangerTestResult := none
  index_to_stock_result : Option GrangerTestResult := none
deriving DecidableEq

/-- Embeds GrangerResponse of backend/models/granger_model.py (the wall-clock
execution_time field is not modelled). -/
structure GrangerResponse where
  stock_symbol : String
  stock_name : String
  max_lag : ℕ
  significance_level : ℚ
  results : List GrangerResultItem
deriving DecidableEq

/-- One database read performed by GrangerService.execute_granger_test,
recorded so that theorems can speak about which reads happen. -/
inductive DbQuery
  | q_stock_info (symbol : String)
  | q_indices
  | q_stock_kline (symbol : String)
  | q_index_kline (symbol : String)
deriving DecidableEq

/-- The environment of GrangerService: the session-scoped reads (stock name
lookup, index enumeration, kline fetches) and the external statsmodels
regression and numpy log, all parameters of the embedding. -/
structure GrangerDb where
  stock_info : String → Option String
  indices : List (String × String)
  stock_kline : String → List KlineRow
  index_kline : String → List KlineRow
  gct : List (ℚ × ℚ) → ℕ → Except String (ℕ → ℚ × ℚ)
  log : ℚ → ℚ

/-- The body of the per-index loop of execute_granger_test
(granger_service.py, lines 66-113): fetch the pair's data (the index fetch is
skipped when the stock fetch is empty, mirroring the early return inside
get_stock_index_data), skip the pairing when either aligned series is empty,
otherwise build the result item running only the requested directions.
Returns the produced item (if any) and the reads performed. -/
def process_index (db : GrangerDb) (req : GrangerRequest) (idx : String × String) :
    Option GrangerResultItem × List DbQuery :=
  let stock_kline := db.stock_kline req.stock_symbol
  if stock_kline.isEmpty then (none, [DbQuery.q_stock_kline req.stock_symbol])
  else
    let index_kline := db.index_kline idx.1
    let queries := [DbQuery.q_stock_kline req.stock_symbol, DbQuery.q_index_kline idx.1]
    let sd := get_stock_index_data stock_kline index_kline req.exclude_suspension
    if sd.1.isEmpty || sd.2.isEmpty then (none, queries)
    else
      let stock_to_index_result :=
        if req.test_direction = GrangerTestDirection.stock_to_index ∨
            req.test_direction = GrangerTestDirection.both then
          some (run_granger_test db.gct db.log (sd.1.map Prod.snd) (sd.2.map Prod.snd)
            req.max_lag req.significance_level)
        else none
      let index_to_stock_result :=
        if req.test_direction = GrangerTestDirection.index_to_stock ∨
            req.test_direction = GrangerTestDirection.both then
          some (run_granger_test db.gct db.log (sd.2.map Prod.snd) (sd.1.map Prod.snd)
            req.max_lag req.significance_level)
        else none
      (some ⟨idx.1, idx.2, stock_to_index_result, index_to_stock_result⟩, queries)

/-- Embeds GrangerService.execute_granger_test (granger_service.py, lines
40-128): resolve the stock's name (raising ValueError, modelled by
Except.error, when unknown), enumerate all indices, run the per-index loop,
and assemble the response.  The second component records every database read
in order. -/
def execute_granger_test (db : GrangerDb) (req : GrangerRequest) :
    Except String GrangerResponse × List DbQuery :=
  match db.stock_info req.stock_symbol with
  | none =>
    (Except.error ("Stock with symbol " ++ req.stock_symbol ++ " not found"),
     [DbQuery.q_stock_info req.stock_symbol])
  | some stock_name =>
    let step := db.indices.foldl
      (fun (acc : List GrangerResultItem × List DbQuery) idx =>
        let pr := process_index db req idx
        (acc.1 ++ pr.1.toList, acc.2 ++ pr.2))
      ([], [])
    (Except.ok ⟨req.stock_symbol, stock_name, req.max_lag, req.significance_level, step.1⟩,
     [DbQuery.q_stock_info req.stock_symbol, DbQuery.q_indices] ++ step.2)

theorem market_active_of_mem (m : String) (hm : m = "sh" ∨ m = "sz" ∨ m = "bj") :
    market_active (some m) = true := by
  rcases hm with h | h | h <;> subst h <;> rfl

theorem stock_market_clauses_of_mem (m : String) (symbol : String)
    (hm : m = "sh" ∨ m = "sz" ∨ m = "bj") :
    stock_market_clauses (some m) symbol = [stock_market_pred m symbol] := by
  rcases hm with h | h | h <;> subst h <;> rfl

theorem index_market_clauses_of_mem (m : String) (symbol : String)
    (hm : m = "sh" ∨ m = "sz" ∨ m = "bj") :
    index_market_clauses (some m) symbol = [index_market_pred m symbol] := by
  rcases hm with h | h | h <;> subst h <;> rfl

/-- C1: for a strategy restricted to market sh/sz/bj with logic = OR, the
market-scope predicate is still AND-ed in on both query paths: a row whose
symbol fails the market predicate never satisfies the generated WHERE
clause, whatever the other conditions evaluate to. -/
theorem market_scope_always_anded (st : StrategyModel) (m : String) (rs ri : Row)
    (hm : st.market = some m) (hmem : m = "sh" ∨ m = "sz" ∨ m = "bj")
    (hlogic : st.logic = "OR")
    (hs : stock_market_pred m rs.symbol = false)
    (hi : index_market_pred m ri.symbol = false) :
    (∀ b, stock_where_eval st rs = some b → b = false) ∧
    (∀ b, index_where_eval st ri = some b → b = false) := by
  constructor
  · intro b hb
    unfold stock_where_eval at hb
    cases hmap : st.conditions.mapM (fun c => condition_clause_eval c rs.get) with
    | none => rw [hmap] at hb; exact absurd hb (by simp)
    | some cs =>
      rw [hmap] at hb
      simp only [Option.some.injEq] at hb
      rw [hm, stock_market_clauses_of_mem m rs.symbol hmem, hs,
        market_active_of_mem m hmem] at hb
      cases cs <;> simp [stock_combine, combine_logic] at hb <;> exact hb
  · intro b hb
    unfold index_where_eval at hb
    cases hmap : st.conditions.mapM (fun c => condition_clause_eval c ri.get) with
    | none => rw [hmap] at hb; exact absurd hb (by simp)
    | some cs =>
      rw [hmap] at hb
      simp only [Option.some.injEq] at hb
      rw [hm, index_market_clauses_of_mem m ri.symbol hmem, hi,
        market_active_of_mem m hmem] at hb
      cases cs <;> simp [index_combine, combine_logic] at hb <;> exact hb

/-- Strategy used by the C1 witness: market sh, logic OR, one condition the
witness rows satisfy. -/
def wC1strategy : StrategyModel :=
  ⟨"市场筛选", none, some "sh", none,
    [⟨"close", IndicatorType.price, ComparisonOperator.gt, CondValue.num 10,
      TimeFrame.daily, none⟩],
    "OR", none, none, some "desc"⟩

/-- Stock row failing the sh stock-market predicate but satisfying the
condition. -/
def wC1stockRow : Row := ⟨"000001", fun _ => 12⟩

/-- Index row failing the sh index-market predicate but satisfying the
condition. -/
def wC1indexRow : Row := ⟨"600001", fun _ => 12⟩

theorem market_scope_always_anded_witness :
    stock_where_eval wC1strategy wC1stockRow = some false ∧
    ¬ stock_where_eval wC1strategy wC1stockRow = some true ∧
    ¬ index_where_eval wC1strategy wC1indexRow = some true := by
  have h := market_scope_always_anded wC1strategy "sh" wC1stockRow wC1indexRow rfl
    (Or.inl rfl) rfl (by decide) (by decide)
  exact ⟨by decide, fun hb => by simpa using h.1 true hb,
    fun hb => by simpa using h.2 true hb⟩

/-- C9: boundary semantics of the six scalar comparison operators.  For a
condition with a numeric bound and a row whose indicator value equals that
bound, the compiled predicate is satisfied for >=, <= and ==, and not
satisfied for >, < and !=. -/
theorem comparison_boundary_semantics (c : ConditionModel) (g : String → ℚ) (v : ℚ)
    (hv : c.value = CondValue.num v) (hg : g c.indicator = v) :
    (c.operator = ComparisonOperator.gte → condition_clause_eval c g = some true) ∧
    (c.operator = ComparisonOperator.lte → condition_clause_eval c g = some true) ∧
    (c.operator = ComparisonOperator.eq → condition_clause_eval c g = some true) ∧
    (c.operator = ComparisonOperator.gt → condition_clause_eval c g = some false) ∧
    (c.operator = ComparisonOperator.lt → condition_clause_eval c g = some false) ∧
    (c.operator = ComparisonOperator.neq → condition_clause_eval c g = some false) := by
  refine ⟨fun h => ?_, fun h => ?_, fun h => ?_, fun h => ?_, fun h => ?_, fun h => ?_⟩ <;>
    simp [condition_clause_eval, h, hv, hg]

theorem comparison_boundary_semantics_witness :
    condition_clause_eval
      ⟨"close", IndicatorType.price, ComparisonOperator.gte, CondValue.num 10,
        TimeFrame.daily, none⟩ (fun _ => 10) = some true ∧
    condition_clause_eval
      ⟨"close", IndicatorType.price, ComparisonOperator.gt, CondValue.num 10,
        TimeFrame.daily, none⟩ (fun _ => 10) = some false :=
  ⟨(comparison_boundary_semantics _ (fun _ => 10) 10 rfl rfl).1 rfl,
   (comparison_boundary_semantics _ (fun _ => 10) 10 rfl rfl).2.2.2.1 rfl⟩

theorem name_error_mem (s : StrategyModel) (h : s.name = "") :
    "name: ensure this value has at least 1 characters" ∈ strategy_construction_errors s := by
  unfold strategy_construction_errors name_field_errors
  rw [h]
  simp

theorem conditions_error_mem (s : StrategyModel) (h : s.conditions = []) :
    "conditions: ensure this value has at least 1 items" ∈ strategy_construction_errors s := by
  unfold strategy_construction_errors conditions_field_errors
  rw [h]
  simp

theorem between_malformed_validate (c : ConditionModel)
    (h : between_malformed c = true) :
    ∃ e, validate_value c.operator c.value = Except.error e := by
  unfold between_malformed at h
  simp only [Bool.and_eq_true, decide_eq_true_eq] at h
  obtain ⟨hop, hval⟩ := h
  unfold validate_value
  rw [hop]
  simp only [if_pos rfl]
  cases hv : c.value with
  | num x => exact ⟨between_shape_error, rfl⟩
  | list vs =>
    match vs with
    | [] => exact ⟨between_shape_error, rfl⟩
    | [a] => exact ⟨between_shape_error, rfl⟩
    | lo :: hi :: x :: xs => exact ⟨between_shape_error, rfl⟩
    | [lo, hi] =>
      rw [hv] at hval
      simp only [decide_eq_true_eq] at hval
      exact ⟨between_order_error, by simp [hval]⟩

theorem between_error_mem (s : StrategyModel) (p : ℕ × ConditionModel)
    (hp : p ∈ s.conditions.enum) (hmal : between_malformed p.2 = true) :
    ∃ e, validate_value p.2.operator p.2.value = Except.error e ∧
      ("conditions." ++ toString p.1 ++ ".value: " ++ e) ∈ strategy_construction_errors s := by
  obtain ⟨e, he⟩ := between_malformed_validate p.2 hmal
  refine ⟨e, he, ?_⟩
  unfold strategy_construction_errors
  refine List.mem_append.mpr (Or.inr ?_)
  refine List.mem_flatMap.mpr ⟨p, hp, ?_⟩
  simp [condition_value_errors, he]

theorem build_strategy_error_of_ne (s : StrategyModel)
    (h : strategy_construction_errors s ≠ []) :
    build_strategy s = Except.error (strategy_construction_errors s) := by
  cases hes : strategy_construction_errors s with
  | nil => exact absurd hes h
  | cons a t => simp [build_strategy, hes]

/-- C2: every structural failure of a strategy — empty name, empty conditions
list, malformed between bounds — is reported through a collected list of
field-level error strings covering all problems at once (pydantic gathers
every failed field constraint into the one ValidationError's error list), and
the service-level validate_strategy likewise returns its findings as a list,
never raising them one at a time. -/
theorem validation_failures_collected (s : StrategyModel)
    (hbad : s.name = "" ∨ s.conditions = [] ∨
      ∃ p ∈ s.conditions.enum, between_malformed p.2 = true) :
    (∃ es, build_strategy s = Except.error es ∧
      (s.name = "" → "name: ensure this value has at least 1 characters" ∈ es) ∧
      (s.conditions = [] → "conditions: ensure this value has at least 1 items" ∈ es) ∧
      (∀ p ∈ s.conditions.enum, between_malformed p.2 = true →
        ∃ e, validate_value p.2.operator p.2.value = Except.error e ∧
          ("conditions." ++ toString p.1 ++ ".value: " ++ e) ∈ es)) ∧
    (s.name.trim = "" → "策略名称不能为空" ∈ validate_strategy s) ∧
    (s.conditions = [] → "至少需要一个选股条件" ∈ validate_strategy s) := by
  refine ⟨?_, fun h => by simp [validate_strategy, h], fun h => by simp [validate_strategy, h]⟩
  have hne : strategy_construction_errors s ≠ [] := by
    rcases hbad with h | h | ⟨p, hp, hmal⟩
    · exact List.ne_nil_of_mem (name_error_mem s h)
    · exact List.ne_nil_of_mem (conditions_error_mem s h)
    · obtain ⟨e, _, hmem⟩ := between_error_mem s p hp hmal
      exact List.ne_nil_of_mem hmem
  refine ⟨strategy_construction_errors s, build_strategy_error_of_ne s hne,
    fun h => name_error_mem s h, fun h => conditions_error_mem s h,
    fun p hp hmal => between_error_mem s p hp hmal⟩

/-- Strategy used by the C2 witness: empty name and a malformed between
condition (low >= high) at the same time. -/
def wC2strategy : StrategyModel :=
  ⟨"", none, some "all", none,
    [⟨"close", IndicatorType.price, ComparisonOperator.between, CondValue.list [5, 3],
      TimeFrame.daily, none⟩],
    "AND", none, none, some "desc"⟩

theorem validation_failures_collected_witness :
    ∃ es, build_strategy wC2strategy = Except.error es ∧
      "name: ensure this value has at least 1 characters" ∈ es ∧
      ("conditions." ++ toString 0 ++ ".value: " ++ between_order_error) ∈ es := by
  obtain ⟨⟨es, h1, h2, _, h4⟩, _⟩ := validation_failures_collected wC2strategy (Or.inl rfl)
  refine ⟨es, h1, h2 rfl, ?_⟩
  obtain ⟨e, he, hmem⟩ :=
    h4 (0, ⟨"close", IndicatorType.price, ComparisonOperator.between, CondValue.list [5, 3],
      TimeFrame.daily, none⟩) (by decide) (by decide)
  have hv : validate_value ComparisonOperator.between (CondValue.list [(5 : ℚ), 3]) =
      Except.error between_order_error := rfl
  have h6 : (Except.error between_order_error : Except String CondValue) = Except.error e :=
    hv.symm.trans he
  injection h6 with h5
  rw [h5]
  exact hmem

/-- C3: when the statsmodels regression raises for the whole batch,
run_granger_test returns (rather than raises) a result carrying the error
message and the default verdict has_causality = false, significant_lags = [],
min_p_value = null. -/
theorem granger_batch_failure_default_verdict
    (gct : List (ℚ × ℚ) → ℕ → Except String (ℕ → ℚ × ℚ)) (log : ℚ → ℚ)
    (x y : List ℚ) (max_lag : ℕ) (sig : ℚ) (e : String)
    (h : gct (granger_data log x y) max_lag = Except.error e) :
    run_granger_test gct log x y max_lag sig =
      ⟨[], ⟨false, [], none⟩, some e⟩ := by
  unfold run_granger_test
  rw [h]

/-- Failing regression used by the C3 witness. -/
def wC3gct : List (ℚ × ℚ) → ℕ → Except String (ℕ → ℚ × ℚ) :=
  fun _ _ => Except.error "Insufficient observations"

theorem granger_batch_failure_default_verdict_witness :
    run_granger_test wC3gct id [1, 2, 3] [2, 3, 4] 5 1 =
      ⟨[], ⟨false, [], none⟩, some "Insufficient observations"⟩ :=
  granger_batch_failure_default_verdict wC3gct id [1, 2, 3] [2, 3, 4] 5 1
    "Insufficient observations" rfl

theorem rat_min?_isSome (l : List ℚ) (h : l ≠ []) : ∃ m, l.min? = some m := by
  cases l with
  | nil => exact absurd rfl h
  | cons a t => exact ⟨t.foldl min a, rfl⟩

theorem rat_min?_spec (l : List ℚ) (m : ℚ) (h : l.min? = some m) :
    m ∈ l ∧ ∀ b ∈ l, m ≤ b := by
  haveI : Std.Antisymm (fun a b : ℚ => a ≤ b) := ⟨fun h1 h2 => le_antisymm h1 h2⟩
  exact (List.min?_eq_some_iff (fun a => le_refl a) (fun a b => min_choice a b)
    (fun a b c => le_min_iff)).mp h

/-- C4: on the success path, run_granger_test reports exactly the lags
1..max_lag; each lag's record carries the ssr_ftest statistic and p-value
with is_significant iff p-value < significance_level; has_causality iff some
lag is significant; significant_lags is exactly the set of significant lags;
and min_p_value is the minimum p-value over all tested lags. -/
theorem granger_success_aggregation
    (gct : List (ℚ × ℚ) → ℕ → Except String (ℕ → ℚ × ℚ)) (log : ℚ → ℚ)
    (x y : List ℚ) (max_lag : ℕ) (sig : ℚ) (tr : ℕ → ℚ × ℚ) (r : GrangerTestResult)
    (hok : gct (granger_data log x y) max_lag = Except.ok tr)
    (hlag : 1 ≤ max_lag)
    (hr : run_granger_test gct log x y max_lag sig = r) :
    r.lag_results.map Prod.fst = List.range' 1 max_lag ∧
    (∀ q ∈ r.lag_results, q.2.f_value = (tr q.1).1 ∧ q.2.p_value = (tr q.1).2 ∧
      (q.2.is_significant = true ↔ q.2.p_value < sig)) ∧
    (r.conclusion.has_causality = true ↔
      ∃ lag ∈ List.range' 1 max_lag, (tr lag).2 < sig) ∧
    (∀ lag, lag ∈ r.conclusion.significant_lags ↔
      lag ∈ List.range' 1 max_lag ∧ (tr lag).2 < sig) ∧
    (∃ m, r.conclusion.min_p_value = some m ∧
      (∃ lag ∈ List.range' 1 max_lag, (tr lag).2 = m) ∧
      (∀ lag ∈ List.range' 1 max_lag, m ≤ (tr lag).2)) := by
  subst hr
  simp only [run_granger_test, hok]
  have hne : ((List.range' 1 max_lag).map fun lag => (tr lag).2) ≠ [] := by
    simp [List.range'_eq_nil]
    omega
  obtain ⟨m, hmin⟩ := rat_min?_isSome _ hne
  obtain ⟨hmem, hle⟩ := rat_min?_spec _ m hmin
  simp only [hmin]
  refine ⟨?_, ?_, ?_, ?_, ?_⟩
  · simp [List.map_map, Function.comp_def]
  · intro q hq
    simp only [List.mem_map] at hq
    obtain ⟨lag, _, rfl⟩ := hq
    simp
  · simp only [Bool.not_eq_true']
    rw [List.isEmpty_eq_false, Ne, List.filter_eq_nil_iff]
    push_neg
    simp
  · intro lag
    simp [List.mem_filter]
  · refine ⟨m, rfl, ?_, ?_⟩
    · simpa using hmem
    · intro lag hl
      exact hle _ (List.mem_map.mpr ⟨lag, hl, rfl⟩)

/-- Successful regression used by the C4 witness: p-value 0 at lag 3, 2
elsewhere. -/
def wC4gct : List (ℚ × ℚ) → ℕ → Except String (ℕ → ℚ × ℚ) :=
  fun _ _ => Except.ok (fun lag => (1, if lag = 3 then 0 else 2))

theorem granger_success_aggregation_witness :
    3 ∈ (run_granger_test wC4gct id [1, 2, 3] [2, 3, 4] 5 1).conclusion.significant_lags ∧
    (run_granger_test wC4gct id [1, 2, 3] [2, 3, 4] 5 1).conclusion.has_causality = true := by
  have h := granger_success_aggregation wC4gct id [1, 2, 3] [2, 3, 4] 5 1
    (fun lag => (1, if lag = 3 then 0 else 2)) _ rfl (by omega) rfl
  exact ⟨(h.2.2.2.1 3).mpr (by decide), h.2.2.1.mpr ⟨3, by decide, by decide⟩⟩

instance instFstLeTotal : IsTotal (ℕ × ℚ) (fun a b => a.1 ≤ b.1) :=
  ⟨fun a b => le_total a.1 b.1⟩

instance instFstLeTrans : IsTrans (ℕ × ℚ) (fun a b => a.1 ≤ b.1) :=
  ⟨fun _ _ _ h1 h2 => le_trans h1 h2⟩

theorem get_stock_index_data_eq (sk ik : List KlineRow) (excl : Bool)
    (hs : sk ≠ []) (hi : ik ≠ []) :
    get_stock_index_data sk ik excl =
      (date_close_sorted (suspension_filtered_stock sk excl)
        (common_dates (suspension_filtered_stock sk excl)
          (suspension_filtered_index (suspension_filtered_stock sk excl) ik excl)),
       date_close_sorted (suspension_filtered_index (suspension_filtered_stock sk excl) ik excl)
        (common_dates (suspension_filtered_stock sk excl)
          (suspension_filtered_index (suspension_filtered_stock sk excl) ik excl))) := by
  have hs' : sk.isEmpty = false := List.isEmpty_eq_false.mpr hs
  have hi' : ik.isEmpty = false := List.isEmpty_eq_false.mpr hi
  simp only [get_stock_index_data, hs', hi', Bool.false_eq_true, if_false]

theorem mem_dates_date_close_sorted (rows : List KlineRow) (common : List ℕ) (d : ℕ) :
    d ∈ (date_close_sorted rows common).map Prod.fst ↔
      d ∈ kline_dates rows ∧ d ∈ common := by
  unfold date_close_sorted
  rw [List.Perm.mem_iff ((List.perm_insertionSort _ _).map Prod.fst)]
  simp only [List.map_map, List.mem_map, List.mem_filter, Function.comp_apply,
    decide_eq_true_eq, kline_dates]
  constructor
  · rintro ⟨r, ⟨hr, hc⟩, rfl⟩
    exact ⟨⟨r, hr, rfl⟩, hc⟩
  · rintro ⟨⟨r, hr, rfl⟩, hc⟩
    exact ⟨r, ⟨hr, hc⟩, rfl⟩

theorem mem_common_dates (sdf idf : List KlineRow) (d : ℕ) :
    d ∈ common_dates sdf idf ↔ d ∈ kline_dates sdf ∧ d ∈ kline_dates idf := by
  simp [common_dates, List.mem_filter]

theorem mem_kline_dates (rows : List KlineRow) (d : ℕ) :
    d ∈ kline_dates rows ↔ ∃ r ∈ rows, r.date = d := by
  simp [kline_dates]

theorem mem_dates_suspension_filtered_index (sdf ik : List KlineRow) (excl : Bool) (d : ℕ) :
    d ∈ kline_dates (suspension_filtered_index sdf ik excl) ↔
      d ∈ kline_dates ik ∧ (excl = true → d ∈ kline_dates sdf) := by
  cases excl with
  | false => simp [suspension_filtered_index]
  | true =>
    rw [mem_kline_dates]
    simp only [suspension_filtered_index, List.mem_filter, decide_eq_true_eq]
    constructor
    · rintro ⟨r, ⟨hr, hc⟩, rfl⟩
      exact ⟨(mem_kline_dates ik _).mpr ⟨r, hr, rfl⟩, fun _ => hc⟩
    · rintro ⟨hik, himp⟩
      obtain ⟨r, hr, rfl⟩ := (mem_kline_dates ik _).mp hik
      exact ⟨r, ⟨hr, himp (by trivial)⟩, rfl⟩

theorem mem_aligned_dates (sk ik : List KlineRow) (excl : Bool)
    (hs : sk ≠ []) (hi : ik ≠ []) (d : ℕ) :
    (d ∈ (get_stock_index_data sk ik excl).1.map Prod.fst ↔
      d ∈ kline_dates (suspension_filtered_stock sk excl) ∧ d ∈ kline_dates ik) ∧
    (d ∈ (get_stock_index_data sk ik excl).2.map Prod.fst ↔
      d ∈ kline_dates (suspension_filtered_stock sk excl) ∧ d ∈ kline_dates ik) := by
  rw [get_stock_index_data_eq sk ik excl hs hi]
  constructor
  · rw [mem_dates_date_close_sorted, mem_common_dates, mem_dates_suspension_filtered_index]
    tauto
  · rw [mem_dates_date_close_sorted, mem_common_dates, mem_dates_suspension_filtered_index]
    tauto

theorem nodup_dates_date_close_sorted (rows : List KlineRow) (common : List ℕ)
    (h : (kline_dates rows).Nodup) :
    ((date_close_sorted rows common).map Prod.fst).Nodup := by
  unfold date_close_sorted
  have hperm := (List.perm_insertionSort (fun a b : ℕ × ℚ => a.1 ≤ b.1)
    ((rows.filter (fun r => decide (r.date ∈ common))).map (fun r => (r.date, r.close)))).map
    Prod.fst
  refine (List.Perm.nodup_iff hperm).mpr ?_
  rw [List.map_map]
  exact ((List.filter_sublist rows).map KlineRow.date).nodup h

theorem sorted_dates_date_close_sorted (rows : List KlineRow) (common : List ℕ) :
    List.Sorted (fun a b : ℕ => a ≤ b) ((date_close_sorted rows common).map Prod.fst) := by
  unfold date_close_sorted
  have hs := List.sorted_insertionSort (fun a b : ℕ × ℚ => a.1 ≤ b.1)
    ((rows.filter (fun r => decide (r.date ∈ common))).map (fun r => (r.date, r.close)))
  exact List.Pairwise.map Prod.fst (fun a b hab => hab) hs

theorem nodup_dates_suspension_filtered_stock (sk : List KlineRow) (excl : Bool)
    (hs : (kline_dates sk).Nodup) :
    (kline_dates (suspension_filtered_stock sk excl)).Nodup := by
  cases excl with
  | false => exact hs
  | true => exact ((List.filter_sublist sk).map KlineRow.date).nodup hs

theorem nodup_dates_suspension_filtered_index (sdf ik : List KlineRow) (excl : Bool)
    (hi : (kline_dates ik).Nodup) :
    (kline_dates (suspension_filtered_index sdf ik excl)).Nodup := by
  cases excl with
  | false => exact hi
  | true => exact ((List.filter_sublist ik).map KlineRow.date).nodup hi

theorem get_stock_index_data_nil_right (sk : List KlineRow) (excl : Bool) :
    get_stock_index_data sk [] excl = ([], []) := by
  unfold get_stock_index_data
  by_cases h : sk.isEmpty = true <;> simp [h]

/-- C5: with exclude_suspension, the aligned dates are exactly the dates on
which the stock traded with strictly positive volume intersected with the
dates present in the index series — the index's own volumes play no role, so
its zero-volume dates are never removed. -/
theorem aligner_suspension_dates (sk ik : List KlineRow)
    (hs : sk ≠ []) (hi : ik ≠ []) (d : ℕ) :
    (d ∈ (get_stock_index_data sk ik true).1.map Prod.fst ↔
      (∃ r ∈ sk, r.date = d ∧ 0 < r.volume) ∧ ∃ r ∈ ik, r.date = d) ∧
    (d ∈ (get_stock_index_data sk ik true).2.map Prod.fst ↔
      (∃ r ∈ sk, r.date = d ∧ 0 < r.volume) ∧ ∃ r ∈ ik, r.date = d) := by
  have h := mem_aligned_dates sk ik true hs hi d
  have hfs : d ∈ kline_dates (suspension_filtered_stock sk true) ↔
      ∃ r ∈ sk, r.date = d ∧ 0 < r.volume := by
    rw [mem_kline_dates]
    simp only [suspension_filtered_stock, List.mem_filter, decide_eq_true_eq]
    constructor
    · rintro ⟨r, ⟨hr, hv⟩, rfl⟩
      exact ⟨r, hr, rfl, hv⟩
    · rintro ⟨r, hr, rfl, hv⟩
      exact ⟨r, ⟨hr, hv⟩, rfl⟩
  rw [h.1, h.2, hfs, mem_kline_dates]
  exact ⟨Iff.rfl, Iff.rfl⟩

/-- Stock fetch of the C5/C6 witnesses: suspended (volume 0) on date 1. -/
def wC5stock : List KlineRow := [⟨1, 10, 0⟩, ⟨2, 11, 5⟩, ⟨3, 12, 5⟩]

/-- Index fetch of the C5/C6 witnesses: date 4 absent from the stock, and its
own volume is 0 on date 2 (which must survive the filtering). -/
def wC5index : List KlineRow := [⟨1, 100, 7⟩, ⟨2, 101, 0⟩, ⟨3, 102, 7⟩, ⟨4, 103, 7⟩]

theorem aligner_suspension_dates_witness :
    get_stock_index_data wC5stock wC5index true = ([(2, 11), (3, 12)], [(2, 101), (3, 102)]) ∧
    2 ∈ (get_stock_index_data wC5stock wC5index true).1.map Prod.fst ∧
    ¬ 1 ∈ (get_stock_index_data wC5stock wC5index true).1.map Prod.fst := by
  refine ⟨by decide, ?_, ?_⟩
  · exact (aligner_suspension_dates wC5stock wC5index (by decide) (by decide) 2).1.mpr
      (by decide)
  · intro hmem
    have h := (aligner_suspension_dates wC5stock wC5index (by decide) (by decide) 1).1.mp hmem
    exact absurd h (by decide)

theorem date_close_sorted_pair_aligned (S I : List KlineRow) (c : List ℕ)
    (hS : (kline_dates S).Nodup) (hI : (kline_dates I).Nodup)
    (hmem : ∀ d, d ∈ (date_close_sorted S c).map Prod.fst ↔
      d ∈ (date_close_sorted I c).map Prod.fst) :
    (date_close_sorted S c).map Prod.fst = (date_close_sorted I c).map Prod.fst ∧
    (date_close_sorted S c).length = (date_close_sorted I c).length ∧
    List.Sorted (fun a b : ℕ => a < b) ((date_close_sorted S c).map Prod.fst) := by
  have hA := nodup_dates_date_close_sorted S c hS
  have hB := nodup_dates_date_close_sorted I c hI
  have hsortA := sorted_dates_date_close_sorted S c
  have hsortB := sorted_dates_date_close_sorted I c
  have hperm := List.perm_of_nodup_nodup_toFinset_eq hA hB (by
    ext d
    simp only [List.mem_toFinset]
    exact hmem d)
  have hAB := List.eq_of_perm_of_sorted hperm hsortA hsortB
  refine ⟨hAB, ?_, hsortA.lt_of_le hA⟩
  have h := congrArg List.length hAB
  simpa using h

/-- C6: the two aligned series always carry identical date sequences (hence
equal length) sorted strictly ascending, and an empty fetch on either side
yields two empty series rather than an error.  Dates are assumed unique per
fetched series, as daily OHLCV rows are keyed by (symbol, date). -/
theorem aligner_alignment_invariant (sk ik : List KlineRow) (excl : Bool)
    (hs : (kline_dates sk).Nodup) (hi : (kline_dates ik).Nodup) :
    (get_stock_index_data sk ik excl).1.map Prod.fst =
      (get_stock_index_data sk ik excl).2.map Prod.fst ∧
    (get_stock_index_data sk ik excl).1.length = (get_stock_index_data sk ik excl).2.length ∧
    List.Sorted (fun a b : ℕ => a < b) ((get_stock_index_data sk ik excl).1.map Prod.fst) ∧
    (sk = [] ∨ ik = [] → get_stock_index_data sk ik excl = ([], [])) := by
  by_cases hsk : sk = []
  · subst hsk
    exact ⟨rfl, rfl, List.sorted_nil, fun _ => rfl⟩
  by_cases hik : ik = []
  · subst hik
    rw [get_stock_index_data_nil_right]
    exact ⟨rfl, rfl, List.sorted_nil, fun _ => rfl⟩
  have heq := get_stock_index_data_eq sk ik excl hsk hik
  rw [heq]
  have hpair := date_close_sorted_pair_aligned
    (suspension_filtered_stock sk excl)
    (suspension_filtered_index (suspension_filtered_stock sk excl) ik excl)
    (common_dates (suspension_filtered_stock sk excl)
      (suspension_filtered_index (suspension_filtered_stock sk excl) ik excl))
    (nodup_dates_suspension_filtered_stock sk excl hs)
    (nodup_dates_suspension_filtered_index (suspension_filtered_stock sk excl) ik excl hi)
    (fun d => by
      have h := mem_aligned_dates sk ik excl hsk hik d
      rw [heq] at h
      exact h.1.trans h.2.symm)
  exact ⟨hpair.1, hpair.2.1, hpair.2.2,
    fun h => h.elim (fun h1 => absurd h1 hsk) (fun h2 => absurd h2 hik)⟩

theorem aligner_alignment_invariant_witness :
    (get_stock_index_data wC5stock wC5index true).1.map Prod.fst =
      (get_stock_index_data wC5stock wC5index true).2.map Prod.fst ∧
    get_stock_index_data [] wC5index true = ([], []) := by
  have h1 := aligner_alignment_invariant wC5stock wC5index true (by decide) (by decide)
  have h2 := aligner_alignment_invariant [] wC5index true (by decide) (by decide)
  exact ⟨h1.1, h2.2.2.2 (Or.inl rfl)⟩

theorem log_diff_series_real_length (log : ℝ → ℝ) (xs : List ℝ) :
    (log_diff_series_real log xs).length = xs.length - 1 := by
  unfold log_diff_series_real
  rw [List.length_map, List.length_zip, List.length_tail]
  omega

theorem log_diff_series_real_getElem (log : ℝ → ℝ) (xs : List ℝ) (i : ℕ) (a b : ℝ)
    (ha : xs[i]? = some a) (hb : xs[i + 1]? = some b) :
    (log_diff_series_real log xs)[i]? = some (log b - log a) := by
  unfold log_diff_series_real
  rw [List.getElem?_map]
  have hz : (xs.zip xs.tail)[i]? = some (a, b) :=
    List.getElem?_zip_eq_some.mpr ⟨ha, by rw [List.getElem?_tail]; exact hb⟩
  rw [hz]
  rfl

/-- C7: the stationarity transform turns a price sequence of length N into a
log-return sequence of length N-1 whose i-th entry is ln(p[i+1]/p[i]) (the
natural log followed by the first difference, the undefined first observation
dropped); the transform used inside run_granger_test has the same length
behaviour. -/
theorem stationarity_log_returns (p : List ℝ) :
    (log_diff_series_real Real.log p).length = p.length - 1 ∧
    (∀ i a b, p[i]? = some a → p[i + 1]? = some b → 0 < a → 0 < b →
      (log_diff_series_real Real.log p)[i]? = some (Real.log (b / a))) ∧
    (∀ (lq : ℚ → ℚ) (xs : List ℚ), (log_diff_series lq xs).length = xs.length - 1) := by
  refine ⟨log_diff_series_real_length Real.log p, ?_, ?_⟩
  · intro i a b ha hb hpa hpb
    rw [log_diff_series_real_getElem Real.log p i a b ha hb,
      Real.log_div (ne_of_gt hpb) (ne_of_gt hpa)]
  · intro lq xs
    unfold log_diff_series
    rw [List.length_map, List.length_zip, List.length_tail]
    omega

theorem stationarity_log_returns_witness :
    (log_diff_series_real Real.log [100, 110, 121]).length = 2 ∧
    (log_diff_series_real Real.log [100, 110, 121])[0]? = some (Real.log (110 / 100)) := by
  have h := stationarity_log_returns [100, 110, 121]
  constructor
  · rw [h.1]
    rfl
  · exact h.2.1 0 100 110 rfl rfl (by norm_num) (by norm_num)

/-- C8: an unknown stock symbol makes execute_granger_test fail with the
not-found error before the index list is enumerated and before any kline data
is fetched: the only read performed is the stock-info lookup. -/
theorem unknown_stock_fails_before_index_queries (db : GrangerDb) (req : GrangerRequest)
    (h : db.stock_info req.stock_symbol = none) :
    execute_granger_test db req =
      (Except.error ("Stock with symbol " ++ req.stock_symbol ++ " not found"),
       [DbQuery.q_stock_info req.stock_symbol]) ∧
    DbQuery.q_indices ∉ (execute_granger_test db req).2 ∧
    (∀ s, DbQuery.q_stock_kline s ∉ (execute_granger_test db req).2 ∧
      DbQuery.q_index_kline s ∉ (execute_granger_test db req).2) := by
  have heq : execute_granger_test db req =
      (Except.error ("Stock with symbol " ++ req.stock_symbol ++ " not found"),
       [DbQuery.q_stock_info req.stock_symbol]) := by
    simp only [execute_granger_test, h]
  refine ⟨heq, ?_, ?_⟩
  · rw [heq]
    simp
  · intro s
    rw [heq]
    simp

/-- Environment of the C8 witness: no stock is known. -/
def wC8db : GrangerDb :=
  ⟨fun _ => none, [("IDX1", "Index One")], fun _ => [], fun _ => [],
   fun _ _ => Except.error "unused", id⟩

/-- Request of the C8 witness. -/
def wC8req : GrangerRequest := ⟨"999999", 5, GrangerTestDirection.both, 1, true⟩

theorem unknown_stock_fails_before_index_queries_witness :
    execute_granger_test wC8db wC8req =
      (Except.error ("Stock with symbol " ++ "999999" ++ " not found"),
       [DbQuery.q_stock_info "999999"]) ∧
    DbQuery.q_indices ∉ (execute_granger_test wC8db wC8req).2 := by
  have h := unknown_stock_fails_before_index_queries wC8db wC8req rfl
  exact ⟨h.1, h.2.1⟩

theorem process_index_direction (db : GrangerDb) (req : GrangerRequest)
    (idx : String × String) (item : GrangerResultItem)
    (h : (process_index db req idx).1 = some item) :
    (req.test_direction = GrangerTestDirection.stock_to_index →
      item.index_to_stock_result = none) ∧
    (req.test_direction = GrangerTestDirection.index_to_stock →
      item.stock_to_index_result = none) ∧
    (req.test_direction = GrangerTestDirection.both →
      item.stock_to_index_result.isSome ∧ item.index_to_stock_result.isSome) := by
  simp only [process_index] at h
  split at h
  · exact absurd h (by simp)
  · split at h
    · exact absurd h (by simp)
    · simp only [Option.some.injEq] at h
      subst h
      refine ⟨fun hd => ?_, fun hd => ?_, fun hd => ?_⟩ <;> simp [hd]

theorem foldl_items_mem (db : GrangerDb) (req : GrangerRequest) :
    ∀ (L : List (String × String)) (acc : List GrangerResultItem × List DbQuery)
      (x : GrangerResultItem),
      x ∈ (L.foldl (fun (acc : List GrangerResultItem × List DbQuery) idx =>
        let pr := process_index db req idx
        (acc.1 ++ pr.1.toList, acc.2 ++ pr.2)) acc).1 →
      x ∈ acc.1 ∨ ∃ idx ∈ L, (process_index db req idx).1 = some x := by
  intro L
  induction L with
  | nil => exact fun acc x hx => Or.inl hx
  | cons i L ih =>
    intro acc x hx
    simp only [List.foldl_cons] at hx
    rcases ih _ x hx with hacc | ⟨idx, hidx, hpi⟩
    · rcases List.mem_append.mp hacc with h1 | h2
      · exact Or.inl h1
      · right
        refine ⟨i, List.mem_cons_self i L, ?_⟩
        cases hp : (process_index db req i).1 with
        | none => rw [hp] at h2; simp at h2
        | some y =>
          rw [hp] at h2
          simp only [Option.toList_some, List.mem_singleton] at h2
          rw [h2]
    · exact Or.inr ⟨idx, List.mem_cons_of_mem i hidx, hpi⟩

/-- C10: a direction's result field is populated only when that direction was
requested: with test_direction = stock_to_index every returned item has
index_to_stock_result = None, with index_to_stock every item has
stock_to_index_result = None, and with both every item has both populated. -/
theorem direction_gates_result_fields (db : GrangerDb) (req : GrangerRequest)
    (resp : GrangerResponse) (trace : List DbQuery)
    (h : execute_granger_test db req = (Except.ok resp, trace))
    (item : GrangerResultItem) (hitem : item ∈ resp.results) :
    (req.test_direction = GrangerTestDirection.stock_to_index →
      item.index_to_stock_result = none) ∧
    (req.test_direction = GrangerTestDirection.index_to_stock →
      item.stock_to_index_result = none) ∧
    (req.test_direction = GrangerTestDirection.both →
      item.stock_to_index_result.isSome ∧ item.index_to_stock_result.isSome) := by
  unfold execute_granger_test at h
  cases hsi : db.stock_info req.stock_symbol with
  | none => rw [hsi] at h; exact absurd h (by simp)
  | some nm =>
    rw [hsi] at h
    simp only [Prod.mk.injEq, Except.ok.injEq] at h
    obtain ⟨hresp, htrace⟩ := h
    subst hresp
    rcases foldl_items_mem db req db.indices ([], []) item hitem with h0 | ⟨idx, _, hpi⟩
    · simp at h0
    · exact process_index_direction db req idx item hpi

/-- Environment of the C10 witness: one index, three aligned trading days,
a regression succeeding with p-value 0 at every lag. -/
def wC10db : GrangerDb :=
  ⟨fun _ => some "Test Stock", [("IDX1", "Index One")],
   fun _ => [⟨1, 10, 5⟩, ⟨2, 11, 5⟩, ⟨3, 12, 5⟩],
   fun _ => [⟨1, 100, 5⟩, ⟨2, 101, 5⟩, ⟨3, 102, 5⟩],
   fun _ _ => Except.ok (fun _ => (1, 0)), id⟩

/-- Request of the C10 witness: only the stock-to-index direction. -/
def wC10req : GrangerRequest := ⟨"600000", 2, GrangerTestDirection.stock_to_index, 1, true⟩

/-- The item produced for the C10 witness environment. -/
def wC10item : GrangerResultItem :=
  ⟨"IDX1", "Index One",
   some ⟨[(1, ⟨1, 0, true⟩), (2, ⟨1, 0, true⟩)], ⟨true, [1, 2], some 0⟩, none⟩,
   none⟩

theorem direction_gates_result_fields_witness :
    wC10item.index_to_stock_result = none := by
  have h := direction_gates_result_fields wC10db wC10req
    ⟨"600000", "Test Stock", 2, 1, [wC10item]⟩
    [DbQuery.q_stock_info "600000", DbQuery.q_indices, DbQuery.q_stock_kline "600000",
     DbQuery.q_index_kline "IDX1"]
    rfl wC10item (List.mem_singleton_self wC10item)
  exact h.1 rfl
